import Mathlib

/-!
# ts-parser: the declaration-statement parser of `golang/main.go`

A shallow embedding of `parseValue`, `parseVariableDeclarator`,
`parseVariableDeclaration` and `ParseToAST`, together with the Go standard
library routines they call (`strings.Cut`, `strings.Split`, `strings.Trim`,
`strings.TrimSpace`, `strings.ReplaceAll`, `strconv.Atoi`, `unicode.IsSpace`).

Conventions of the embedding:

* a Go `string` is a `List Char` (the sequence of its code points; the program
  only ever searches for the one-byte separators `;`, ` `, `=`, `:`, so on
  well-formed UTF-8 text the byte-level and the code-point-level readings of
  every routine agree);
* a Go multiple return `(T, error)` is a pair `T × Option ParseError`, with the
  zero value of `T` in the first component where the source returns `T{}`;
* Go's `int` is the 64-bit signed integer (`intSize = 64`); `Atoi` yields an
  `Int` inside that range or fails;
* `interface{}` holding either an `int` or a `string` (or nothing) is `Value`.
-/

namespace TsParser

/-! ## Data model (`main.go`, lines 25-45) -/

/-- The dynamic content of the `value interface{}` field of a `Literal`:
`nil` (zero value), an `int`, or a `string`. -/
inductive Value where
  | nil : Value
  | int : Int → Value
  | str : List Char → Value
deriving DecidableEq

/-- Go `type Literal struct { kind string; value interface{}; raw string }`. -/
structure Literal where
  kind : List Char
  value : Value
  raw : List Char
deriving DecidableEq

/-- Go `type VariableDeclarator struct { identifier, typeAnnotation string; value Literal }`. -/
structure VariableDeclarator where
  identifier : List Char
  typeAnnotation : List Char
  value : Literal
deriving DecidableEq

/-- Go `type VariableDeclaration struct { kind string; declarator VariableDeclarator }`. -/
structure VariableDeclaration where
  kind : List Char
  declarator : VariableDeclarator
deriving DecidableEq

/-- Go `type AST struct { body struct { declarations []VariableDeclaration } }`. -/
structure AST where
  declarations : List VariableDeclaration
deriving DecidableEq

/-- The two errors built with `fmt.Errorf` in `main.go`; each carries the text
that is interpolated for `%s`. -/
inductive ParseError where
  /-- The error `"[VariableDeclarator] Could not find '=' in %s"` (line 96). -/
  | missingAssignmentOperator (code : List Char) : ParseError
  /-- The error `"[VariableDeclaration] Could not find ' ' in %s"` (line 122). -/
  | missingDeclarationKeyword (code : List Char) : ParseError
deriving DecidableEq

/-- The message of an error, as `err.Error()` renders it. -/
def ParseError.Error : ParseError → List Char
  | .missingAssignmentOperator code =>
      "[VariableDeclarator] Could not find '=' in ".toList ++ code
  | .missingDeclarationKeyword code =>
      "[VariableDeclaration] Could not find ' ' in ".toList ++ code

/-- Zero value `Literal{}`. -/
def Literal.zero : Literal := { kind := [], value := Value.nil, raw := [] }

/-- Zero value `VariableDeclarator{}`. -/
def VariableDeclarator.zero : VariableDeclarator :=
  { identifier := [], typeAnnotation := [], value := Literal.zero }

/-- Zero value `VariableDeclaration{}`. -/
def VariableDeclaration.zero : VariableDeclaration :=
  { kind := [], declarator := VariableDeclarator.zero }

/-- Zero value `AST{}`: no declarations. -/
def AST.zero : AST := { declarations := [] }

/-! ## Go standard library routines used by the parser -/

/-- Go `unicode.IsSpace`: in Latin-1 the characters `\t \n \v \f \r`, space,
U+0085 and U+00A0; beyond Latin-1 the `White_Space` table. -/
def IsSpace (r : Char) : Bool :=
  let n := r.toNat
  if n ≤ 0xFF then
    n == 0x09 || n == 0x0A || n == 0x0B || n == 0x0C || n == 0x0D || n == 0x20
      || n == 0x85 || n == 0xA0
  else
    n == 0x1680 || (0x2000 ≤ n && n ≤ 0x200A) || n == 0x2028 || n == 0x2029
      || n == 0x202F || n == 0x205F || n == 0x3000

/-- Go `strings.TrimSpace`: drop leading, then trailing, white space. -/
def TrimSpace (s : List Char) : List Char :=
  (s.dropWhile IsSpace).rdropWhile IsSpace

/-- Go `strings.Trim(s, cutset)` for a one-character cutset:
`trimLeftByte(trimRightByte(s, c), c)`. -/
def Trim (s : List Char) (c : Char) : List Char :=
  (s.rdropWhile (fun x => x == c)).dropWhile (fun x => x == c)

/-- Go `strings.Cut(s, sep)` for a one-character separator: the text before
the first `sep`, the text after it, and whether `sep` was found; when it is
not found the result is `(s, "", false)`. -/
def Cut (s : List Char) (sep : Char) : List Char × List Char × Bool :=
  match s.dropWhile (fun x => x != sep) with
  | [] => (s, [], false)
  | _ :: after => (s.takeWhile (fun x => x != sep), after, true)

/-- Go `strings.ReplaceAll(s, old, new)` for a one-character `old`. -/
def ReplaceAll : List Char → Char → List Char → List Char
  | [], _, _ => []
  | c :: cs, old, new => (if c = old then new else [c]) ++ ReplaceAll cs old new

/-- The loop of Go `genSplit`: at most `n` cuts at `sep`, the remainder of the
text is the last piece. -/
def genSplit (sep : Char) : Nat → List Char → List (List Char)
  | 0, s => [s]
  | n + 1, s =>
    match Cut s sep with
    | (before, after, true) => before :: genSplit sep n after
    | (_, _, false) => [s]

/-- Go `strings.Split(s, sep)` for a one-character separator:
`genSplit` with `Count(s, sep)` cuts. -/
def Split (s : List Char) (sep : Char) : List (List Char) :=
  genSplit sep (s.count sep) s

/-- Bit width of Go's `int` (`strconv.IntSize`) on a 64-bit platform. -/
def intSize : Nat := 64

/-- The digit loop of `strconv.Atoi` / `ParseUint` in base 10:
`n = n*10 + (ch - '0')`, failing on any byte outside `'0'..'9'`. -/
def parseDigits (n : Nat) : List Char → Option Nat
  | [] => some n
  | ch :: rest =>
    if 48 ≤ ch.toNat ∧ ch.toNat ≤ 57 then parseDigits (n * 10 + (ch.toNat - 48)) rest
    else none

/-- Go `strconv.Atoi`: an optional sign `+` or `-`, then a non-empty run of
decimal digits, whose value must fit Go's `int`; `none` stands for a non-nil
error (syntax or range). -/
def Atoi (s : List Char) : Option Int :=
  match s with
  | [] => none
  | c :: cs =>
    let neg := c == '-'
    let ds := if c == '-' || c == '+' then cs else s
    match ds with
    | [] => none
    | _ :: _ =>
      match parseDigits 0 ds with
      | none => none
      | some un =>
        if neg then
          if un ≤ 2 ^ (intSize - 1) then some (-(un : Int)) else none
        else
          if un < 2 ^ (intSize - 1) then some (un : Int) else none

/-! ## The parser (`main.go`, lines 47-136) -/

/-- Go `parseValue` (lines 47-57). -/
def parseValue (v : List Char) : Value × List Char :=
  let trimmed := Trim v ' '
  match Atoi trimmed with
  | some valInt => (Value.int valInt, "NumericLiteral".toList)
  | none => (Value.str trimmed, "StringLiteral".toList)

/-- Go `parseVariableDeclarator` (lines 92-114). -/
def parseVariableDeclarator (code : List Char) : VariableDeclarator × Option ParseError :=
  match Cut code '=' with
  | (_, _, false) =>
    (VariableDeclarator.zero, some (ParseError.missingAssignmentOperator code))
  | (_left, right, true) =>
    let (value, kind) := parseValue right
    let left := ReplaceAll _left ' ' []
    let (identifier, typeAnnotation, _) := Cut left ':'
    ({ identifier := identifier,
       typeAnnotation := typeAnnotation,
       value := { kind := kind, value := value, raw := right } }, none)

/-- Go `parseVariableDeclaration` (lines 115-136). -/
def parseVariableDeclaration (_code : List Char) : VariableDeclaration × Option ParseError :=
  let code := TrimSpace _code
  match Cut code ' ' with
  | (_, _, false) =>
    (VariableDeclaration.zero, some (ParseError.missingDeclarationKeyword code))
  | (declarationKind, variableDeclaratorStr, true) =>
    match parseVariableDeclarator variableDeclaratorStr with
    | (_, some err) => (VariableDeclaration.zero, some err)
    | (variableDeclarator, none) =>
      ({ kind := declarationKind, declarator := variableDeclarator }, none)

/-- The `for _, decl := range declarationsStrings` loop of `ParseToAST`
(lines 73-80), started with the declarations collected so far: every result is
appended before its error is looked at, and an error returns `AST{}`. -/
def ParseToAST.loop (declarations : List VariableDeclaration) :
    List (List Char) → AST × Option ParseError
  | [] => ({ declarations := declarations }, none)
  | decl :: rest =>
    match parseVariableDeclaration decl with
    | (variableDeclaration, err) =>
      let declarations := declarations ++ [variableDeclaration]
      match err with
      | some e => (AST.zero, some e)
      | none => ParseToAST.loop declarations rest

/-- Go `ParseToAST` (lines 67-90). -/
def ParseToAST (code : List Char) : AST × Option ParseError :=
  ParseToAST.loop [] (Split code ';')

/-! ## Specification-side vocabulary -/

/-- The statements `s_1, ..., s_n` written one after the other with `sep`
between neighbours (the text `s_1 ++ sep ++ ... ++ sep ++ s_n`). -/
def joinWith (sep : Char) : List (List Char) → List Char
  | [] => []
  | [s] => s
  | s :: t :: rest => s ++ sep :: joinWith sep (t :: rest)

/-- A decimal digit `0` .. `9`. -/
def isDigit (c : Char) : Bool := decide (48 ≤ c.toNat ∧ c.toNat ≤ 57)

/-- The natural number denoted by a run of decimal digits, most significant
digit first (positional reading). -/
def decimalValue : List Char → Nat
  | [] => 0
  | c :: cs => (c.toNat - 48) * 10 ^ cs.length + decimalValue cs

/-- A bare integer literal: a non-empty run of decimal digits, optionally
preceded by a minus sign. -/
def isIntegerLiteral (n : List Char) : Bool :=
  match n with
  | [] => false
  | c :: cs =>
    if c = '-' then !cs.isEmpty && cs.all isDigit else (c :: cs).all isDigit

/-- A signed decimal integer: an optional sign `+` or `-`, then a non-empty run
of decimal digits; nothing else (no exponent, point or separator). -/
def isSignedDecimal (t : List Char) : Bool :=
  match t with
  | [] => false
  | c :: cs =>
    if c = '-' ∨ c = '+' then !cs.isEmpty && cs.all isDigit else (c :: cs).all isDigit

/-- The integer denoted by a signed decimal integer. -/
def signedValue (t : List Char) : Int :=
  match t with
  | [] => 0
  | c :: cs =>
    if c = '-' then -(decimalValue cs : Int)
    else if c = '+' then (decimalValue cs : Int)
    else (decimalValue (c :: cs) : Int)

/-- The value fits Go's 64-bit `int`. -/
def fitsInt (z : Int) : Prop := -(2 : Int) ^ (intSize - 1) ≤ z ∧ z < (2 : Int) ^ (intSize - 1)

instance (z : Int) : Decidable (fitsInt z) := by unfold fitsInt; infer_instance

/-- A token as the claims use the word: no white space (in the sense of
`unicode.IsSpace`, which is what `strings.TrimSpace` strips) and none of the
separators `=`, `:`, `;`. -/
def isToken (s : List Char) : Prop :=
  s ≠ [] ∧ ∀ c ∈ s, IsSpace c = false ∧ c ≠ '=' ∧ c ≠ ':' ∧ c ≠ ';'

instance (s : List Char) : Decidable (isToken s) := by unfold isToken; infer_instance

/-- One of the four white-space characters space, tab, newline, carriage
return. -/
def isBlank (c : Char) : Bool :=
  c.toNat == 0x20 || c.toNat == 0x09 || c.toNat == 0x0A || c.toNat == 0x0D

/-- The text with every space character deleted. -/
def removeSpaces (s : List Char) : List Char := s.filter (fun c => c != ' ')

/-! ## Lemmas on the library routines -/

theorem Cut_of_not_mem {s : List Char} {sep : Char} (h : sep ∉ s) :
    Cut s sep = (s, [], false) := by
  have hd : s.dropWhile (fun x => x != sep) = [] := by
    rw [List.dropWhile_eq_nil_iff]
    intro x hx
    have : x ≠ sep := fun e => h (e ▸ hx)
    simpa using this
  simp [Cut, hd]

theorem Cut_append_cons {b : List Char} (a : List Char) {sep : Char} (h : sep ∉ b) :
    Cut (b ++ sep :: a) sep = (b, a, true) := by
  have hall : ∀ x ∈ b, (fun x => x != sep) x = true := by
    intro x hx
    have : x ≠ sep := fun e => h (e ▸ hx)
    simpa using this
  have hd : (b ++ sep :: a).dropWhile (fun x => x != sep) = sep :: a := by
    rw [List.dropWhile_append_of_pos hall]
    simp
  have ht : (b ++ sep :: a).takeWhile (fun x => x != sep) = b := by
    rw [List.takeWhile_append_of_pos hall]
    simp
  simp [Cut, hd, ht]

theorem exists_first_occurrence {s : List Char} {sep : Char} (h : sep ∈ s) :
    ∃ b a, s = b ++ sep :: a ∧ sep ∉ b := by
  induction s with
  | nil => simp at h
  | cons c cs ih =>
    by_cases hc : c = sep
    · exact ⟨[], cs, by simp [hc], by simp⟩
    · have hmem : sep ∈ cs := by
        rcases List.mem_cons.mp h with e | e
        · exact absurd e.symm hc
        · exact e
      obtain ⟨b, a, hs, hb⟩ := ih hmem
      refine ⟨c :: b, a, by simp [hs], ?_⟩
      intro hm
      rcases List.mem_cons.mp hm with e | e
      · exact hc e.symm
      · exact hb e

theorem Cut_found_iff (s : List Char) (sep : Char) :
    (Cut s sep).2.2 = true ↔ sep ∈ s := by
  constructor
  · intro h
    by_contra hn
    rw [Cut_of_not_mem hn] at h
    simp at h
  · intro h
    obtain ⟨b, a, hs, hb⟩ := exists_first_occurrence h
    rw [hs, Cut_append_cons a hb]

theorem genSplit_of_not_mem {sep : Char} (n : Nat) {s : List Char} (h : sep ∉ s) :
    genSplit sep n s = [s] := by
  cases n with
  | zero => rfl
  | succ n => simp [genSplit, Cut_of_not_mem h]

theorem genSplit_append_cons {sep : Char} (n : Nat) {b : List Char} (a : List Char)
    (h : sep ∉ b) : genSplit sep (n + 1) (b ++ sep :: a) = b :: genSplit sep n a := by
  simp [genSplit, Cut_append_cons a h]

theorem Split_of_not_mem {sep : Char} {s : List Char} (h : sep ∉ s) :
    Split s sep = [s] :=
  genSplit_of_not_mem _ h

theorem Split_append_cons {sep : Char} {b : List Char} (a : List Char) (h : sep ∉ b) :
    Split (b ++ sep :: a) sep = b :: Split a sep := by
  unfold Split
  have hc : (b ++ sep :: a).count sep = a.count sep + 1 := by
    rw [List.count_append, List.count_eq_zero_of_not_mem h]
    simp
  rw [hc, genSplit_append_cons _ _ h]

theorem Split_joinWith {sep : Char} (ss : List (List Char)) (hne : ss ≠ [])
    (h : ∀ s ∈ ss, sep ∉ s) : Split (joinWith sep ss) sep = ss := by
  induction ss with
  | nil => exact absurd rfl hne
  | cons s rest ih =>
    cases rest with
    | nil => exact Split_of_not_mem (h s (by simp))
    | cons t rest =>
      have hs : sep ∉ s := h s (by simp)
      have ht : ∀ x ∈ t :: rest, sep ∉ x := fun x hx => h x (List.mem_cons_of_mem _ hx)
      simp only [joinWith]
      rw [Split_append_cons _ hs, ih (by simp) ht]

theorem Split_append_sep {sep : Char} (a b : List Char) :
    Split (a ++ sep :: b) sep = Split a sep ++ Split b sep := by
  suffices H : ∀ n (a : List Char), a.length = n →
      Split (a ++ sep :: b) sep = Split a sep ++ Split b sep from H _ a rfl
  intro n
  induction n using Nat.strong_induction_on with
  | _ n ih =>
    intro a hn
    by_cases hmem : sep ∈ a
    · obtain ⟨a1, a2, ha, ha1⟩ := exists_first_occurrence hmem
      have hlen : a2.length < n := by
        rw [← hn, ha]
        simp
        omega
      have e : a ++ sep :: b = a1 ++ sep :: (a2 ++ sep :: b) := by simp [ha]
      rw [e, Split_append_cons _ ha1, ih _ hlen a2 rfl, ha, Split_append_cons _ ha1]
      rfl
    · rw [Split_append_cons _ hmem, Split_of_not_mem hmem]
      rfl

theorem length_Split (s : List Char) (sep : Char) :
    (Split s sep).length = s.count sep + 1 := by
  suffices H : ∀ n (s : List Char), s.length = n →
      (Split s sep).length = s.count sep + 1 from H _ s rfl
  intro n
  induction n using Nat.strong_induction_on with
  | _ n ih =>
    intro s hn
    by_cases hmem : sep ∈ s
    · obtain ⟨b, a, hs, hb⟩ := exists_first_occurrence hmem
      have hlen : a.length < n := by
        rw [← hn, hs]
        simp
        omega
      rw [hs, Split_append_cons _ hb, List.length_cons, ih _ hlen a rfl, List.count_append,
        List.count_eq_zero_of_not_mem hb, List.count_cons_self]
      omega
    · rw [Split_of_not_mem hmem, List.count_eq_zero_of_not_mem hmem]
      rfl

/-! ## Lemmas on trimming -/

theorem dropWhile_eq_self_of_head {p : Char → Bool} {t : List Char}
    (h : ∀ a, t.head? = some a → p a = false) : t.dropWhile p = t := by
  cases t with
  | nil => rfl
  | cons a rest => simp [List.dropWhile_cons, h a rfl]

theorem rdropWhile_eq_self_of_last {p : Char → Bool} {t : List Char}
    (h : ∀ a, t.getLast? = some a → p a = false) : t.rdropWhile p = t := by
  unfold List.rdropWhile
  rw [dropWhile_eq_self_of_head, List.reverse_reverse]
  intro a ha
  rw [List.head?_reverse] at ha
  exact h a ha

theorem rdropWhile_append_all {p : Char → Bool} (t r : List Char)
    (hr : ∀ x ∈ r, p x = true) : (t ++ r).rdropWhile p = t.rdropWhile p := by
  unfold List.rdropWhile
  rw [List.reverse_append, List.dropWhile_append_of_pos]
  intro a ha
  exact hr a (List.mem_reverse.mp ha)

theorem rdropWhile_append_rtakeWhile (p : Char → Bool) (l : List Char) :
    l.rdropWhile p ++ l.rtakeWhile p = l := by
  unfold List.rdropWhile List.rtakeWhile
  rw [← List.reverse_append, List.takeWhile_append_dropWhile, List.reverse_reverse]

theorem getLast?_of_suffix_ne_nil {l t : List Char} (ht : t ≠ []) :
    (l ++ t).getLast? = t.getLast? := by
  rw [List.getLast?_append]
  cases h : t.getLast? with
  | none => exact absurd (List.getLast?_eq_none_iff.mp h) ht
  | some a => rfl

/-- Trimming takes a run of `c` off each end and leaves a text that neither
starts nor ends with `c`. -/
theorem Trim_decomp (v : List Char) (c : Char) :
    ∃ l r, v = l ++ Trim v c ++ r ∧ (∀ x ∈ l, x = c) ∧ (∀ x ∈ r, x = c) ∧
      (Trim v c).head? ≠ some c ∧ (Trim v c).getLast? ≠ some c := by
  let p : Char → Bool := fun x => x == c
  refine ⟨(v.rdropWhile p).takeWhile p, v.rtakeWhile p, ?_, ?_, ?_, ?_, ?_⟩
  · show v = (v.rdropWhile p).takeWhile p ++ (v.rdropWhile p).dropWhile p ++ v.rtakeWhile p
    rw [List.takeWhile_append_dropWhile, rdropWhile_append_rtakeWhile]
  · intro x hx
    have := List.mem_takeWhile_imp hx
    simpa [p] using this
  · intro x hx
    have := List.mem_rtakeWhile_imp hx
    simpa [p] using this
  · show ((v.rdropWhile p).dropWhile p).head? ≠ some c
    intro h
    have := List.head?_dropWhile_not p (v.rdropWhile p)
    rw [h] at this
    simp [p] at this
  · show ((v.rdropWhile p).dropWhile p).getLast? ≠ some c
    intro h
    have hne : (v.rdropWhile p).dropWhile p ≠ [] := by
      intro e
      rw [e] at h
      simp at h
    have hw : v.rdropWhile p ≠ [] := by
      intro e
      rw [e] at hne
      simp at hne
    have hlast := List.rdropWhile_last_not p v hw
    have e1 : (v.rdropWhile p).getLast? = ((v.rdropWhile p).dropWhile p).getLast? := by
      conv_lhs => rw [← List.takeWhile_append_dropWhile p (v.rdropWhile p)]
      exact getLast?_of_suffix_ne_nil hne
    rw [h, List.getLast?_eq_getLast _ hw] at e1
    have e2 : (v.rdropWhile p).getLast hw = c := Option.some.inj e1
    rw [e2] at hlast
    simp [p] at hlast

/-- A text that neither starts nor ends with `c`, wrapped in runs of `c`, is
what trimming gives back. -/
theorem Trim_sandwich (l t r : List Char) (c : Char) (hl : ∀ x ∈ l, x = c)
    (hr : ∀ x ∈ r, x = c) (hh : t.head? ≠ some c) (hlast : t.getLast? ≠ some c) :
    Trim (l ++ t ++ r) c = t := by
  unfold Trim
  have hp : ∀ x ∈ r, (fun x => x == c) x = true := fun x hx => by simp [hr x hx]
  have hq : ∀ x ∈ l, (fun x => x == c) x = true := fun x hx => by simp [hl x hx]
  rw [rdropWhile_append_all _ _ hp]
  by_cases ht : t = []
  · subst ht
    rw [List.append_nil, List.rdropWhile_eq_nil_iff.mpr hq]
    rfl
  · have h1 : (l ++ t).rdropWhile (fun x => x == c) = l ++ t := by
      apply rdropWhile_eq_self_of_last
      intro a ha
      rw [getLast?_of_suffix_ne_nil ht] at ha
      have : a ≠ c := fun e => hlast (e ▸ ha)
      simpa using this
    rw [h1, List.dropWhile_append_of_pos hq]
    apply dropWhile_eq_self_of_head
    intro a ha
    have : a ≠ c := fun e => hh (e ▸ ha)
    simpa using this

theorem mem_Trim_of_ne {v : List Char} {c x : Char} (hx : x ∈ v) (hne : x ≠ c) :
    x ∈ Trim v c := by
  obtain ⟨l, r, hv, hl, hr, -, -⟩ := Trim_decomp v c
  rw [hv] at hx
  simp only [List.mem_append] at hx
  rcases hx with (h | h) | h
  · exact absurd (hl x h) hne
  · exact h
  · exact absurd (hr x h) hne

theorem TrimSpace_eq_self {s : List Char} (hh : ∀ a, s.head? = some a → IsSpace a = false)
    (hlast : ∀ a, s.getLast? = some a → IsSpace a = false) : TrimSpace s = s := by
  unfold TrimSpace
  rw [dropWhile_eq_self_of_head hh, rdropWhile_eq_self_of_last hlast]

theorem ReplaceAll_nil_of_not_mem {s : List Char} {old : Char} (h : old ∉ s) :
    ReplaceAll s old [] = s := by
  induction s with
  | nil => rfl
  | cons c cs ih =>
    have hc : c ≠ old := fun e => h (by simp [e])
    have hcs : old ∉ cs := fun e => h (List.mem_cons_of_mem _ e)
    simp [ReplaceAll, hc, ih hcs]

theorem ReplaceAll_append (a b : List Char) (old : Char) (new : List Char) :
    ReplaceAll (a ++ b) old new = ReplaceAll a old new ++ ReplaceAll b old new := by
  induction a with
  | nil => rfl
  | cons c cs ih => simp [ReplaceAll, ih]

theorem ReplaceAll_nil_eq_filter (s : List Char) (old : Char) :
    ReplaceAll s old [] = s.filter (fun x => x != old) := by
  induction s with
  | nil => rfl
  | cons c cs ih =>
    by_cases hc : c = old
    · simp [ReplaceAll, hc, ih]
    · simp [ReplaceAll, hc, ih]

theorem mem_rdropWhile_of_not {p : Char → Bool} {d : List Char} {x : Char} (hx : x ∈ d)
    (hp : p x = false) : x ∈ d.rdropWhile p := by
  have h := rdropWhile_append_rtakeWhile p d
  rw [← h] at hx
  rcases List.mem_append.mp hx with e | e
  · exact e
  · have := List.mem_rtakeWhile_imp e
    rw [hp] at this
    cases this

theorem rdropWhile_append_of_mem {p : Char → Bool} (a : List Char) {d : List Char} {x : Char}
    (hx : x ∈ d) (hp : p x = false) : (a ++ d).rdropWhile p = a ++ d.rdropWhile p := by
  have hne : d.rdropWhile p ≠ [] := List.ne_nil_of_mem (mem_rdropWhile_of_not hx hp)
  have hd := rdropWhile_append_rtakeWhile p d
  conv_lhs => rw [← hd, ← List.append_assoc]
  rw [rdropWhile_append_all _ _ (fun y hy => List.mem_rtakeWhile_imp hy)]
  apply rdropWhile_eq_self_of_last
  intro y hy
  rw [getLast?_of_suffix_ne_nil hne, List.getLast?_eq_getLast _ hne] at hy
  have := List.rdropWhile_last_not p d hne
  rw [Option.some.inj hy] at this
  simpa using this

theorem TrimSpace_of_all_space {w : List Char} (h : ∀ c ∈ w, IsSpace c = true) :
    TrimSpace w = [] := by
  unfold TrimSpace
  rw [List.dropWhile_eq_nil_iff.mpr h]
  rfl

/-- White space around a text does not change what `TrimSpace` returns. -/
theorem TrimSpace_pad (w1 s w2 : List Char) (h1 : ∀ c ∈ w1, IsSpace c = true)
    (h2 : ∀ c ∈ w2, IsSpace c = true) : TrimSpace (w1 ++ s ++ w2) = TrimSpace s := by
  unfold TrimSpace
  rw [List.append_assoc, List.dropWhile_append_of_pos h1, List.dropWhile_append]
  by_cases he : (s.dropWhile IsSpace).isEmpty = true
  · rw [if_pos he, List.dropWhile_eq_nil_iff.mpr h2]
    rw [List.isEmpty_iff] at he
    rw [he]
  · rw [if_neg he, rdropWhile_append_all _ _ h2]

theorem TrimSpace_head_not_space (s : List Char) (a : Char)
    (h : (TrimSpace s).head? = some a) : IsSpace a = false := by
  unfold TrimSpace at h
  obtain ⟨t, ht⟩ := List.rdropWhile_prefix IsSpace (l := s.dropWhile IsSpace)
  have h2 : (s.dropWhile IsSpace).head? = some a := by
    rw [← ht, List.head?_append, h]
    rfl
  have h3 := List.head?_dropWhile_not IsSpace s
  rw [h2] at h3
  exact h3

theorem removeSpaces_eq (s : List Char) : ReplaceAll s ' ' [] = removeSpaces s :=
  ReplaceAll_nil_eq_filter s ' '

/-! ## Lemmas on `Atoi` -/

theorem parseDigits_eq (n : Nat) (ds : List Char) :
    parseDigits n ds =
      if ds.all isDigit then some (n * 10 ^ ds.length + decimalValue ds) else none := by
  induction ds generalizing n with
  | nil => simp [parseDigits, decimalValue]
  | cons c cs ih =>
    by_cases hc : 48 ≤ c.toNat ∧ c.toNat ≤ 57
    · have hd : isDigit c = true := by simp [isDigit, hc]
      rw [parseDigits, if_pos hc, ih]
      simp only [List.all_cons, hd, Bool.true_and, decimalValue, List.length_cons]
      split
      · congr 1
        ring
      · rfl
    · have hd : isDigit c = false := by simp [isDigit, hc]
      rw [parseDigits, if_neg hc]
      simp [hd]

/-- What `Atoi` computes, in terms of the specification vocabulary: it succeeds
exactly on the signed decimal integers that fit `int`, with their value. -/
theorem Atoi_eq (t : List Char) :
    Atoi t = if isSignedDecimal t = true ∧ fitsInt (signedValue t)
      then some (signedValue t) else none := by
  cases t with
  | nil => simp [Atoi, isSignedDecimal]
  | cons c cs =>
    by_cases hm : c = '-'
    · subst hm
      cases cs with
      | nil => simp [Atoi, isSignedDecimal]
      | cons d ds =>
        by_cases hall : (d :: ds).all isDigit = true
        · have hfit : fitsInt (-(decimalValue (d :: ds) : Int)) ↔
              decimalValue (d :: ds) ≤ 2 ^ (intSize - 1) := by
            simp only [fitsInt, intSize]
            constructor
            · intro h; omega
            · intro h; constructor <;> omega
          simp only [Atoi, parseDigits_eq, isSignedDecimal, signedValue]
          simp [hall, hfit]
        · simp only [Atoi, parseDigits_eq, isSignedDecimal, signedValue]
          simp [hall]
    · have hfit : ∀ n : Nat, fitsInt (n : Int) ↔ n < 2 ^ (intSize - 1) := by
        intro n
        simp only [fitsInt, intSize]
        constructor
        · intro h; omega
        · intro h; constructor <;> omega
      by_cases hp : c = '+'
      · subst hp
        cases cs with
        | nil => simp [Atoi, isSignedDecimal]
        | cons d ds =>
          by_cases hall : (d :: ds).all isDigit = true
          · simp only [Atoi, parseDigits_eq, isSignedDecimal, signedValue]
            simp [hall, hfit]
          · simp only [Atoi, parseDigits_eq, isSignedDecimal, signedValue]
            simp [hall]
      · by_cases hall : (c :: cs).all isDigit = true
        · simp only [Atoi, parseDigits_eq, isSignedDecimal, signedValue]
          simp [hall, hfit, hm, hp]
        · simp only [Atoi, parseDigits_eq, isSignedDecimal, signedValue]
          simp [hall, hm, hp]

theorem isSignedDecimal_chars {t : List Char} (h : isSignedDecimal t = true) :
    ∀ c ∈ t, isDigit c = true ∨ c = '-' ∨ c = '+' := by
  cases t with
  | nil => simp [isSignedDecimal] at h
  | cons a rest =>
    intro c hc
    by_cases hs : a = '-' ∨ a = '+'
    · simp only [isSignedDecimal, hs, if_true, Bool.and_eq_true, List.all_eq_true] at h
      rcases List.mem_cons.mp hc with e | e
      · right
        rw [e]
        exact hs
      · left
        exact h.2 c e
    · simp only [isSignedDecimal, hs, if_false, List.all_eq_true] at h
      left
      exact h c hc

theorem Atoi_eq_none_of_mem {t : List Char} {c : Char} (hc : c ∈ t)
    (hd : isDigit c = false) (hm : c ≠ '-') (hp : c ≠ '+') : Atoi t = none := by
  rw [Atoi_eq, if_neg]
  rintro ⟨h, -⟩
  rcases isSignedDecimal_chars h c hc with e | e | e
  · rw [hd] at e
    cases e
  · exact hm e
  · exact hp e

theorem parseValue_eq (v : List Char) :
    parseValue v =
      if isSignedDecimal (Trim v ' ') = true ∧ fitsInt (signedValue (Trim v ' '))
      then (Value.int (signedValue (Trim v ' ')), "NumericLiteral".toList)
      else (Value.str (Trim v ' '), "StringLiteral".toList) := by
  unfold parseValue
  simp only [Atoi_eq]
  split_ifs <;> rfl

theorem numeric_ne_string : "NumericLiteral".toList ≠ "StringLiteral".toList := by decide

theorem isSignedDecimal_of_isIntegerLiteral {n : List Char}
    (h : isIntegerLiteral n = true) : isSignedDecimal n = true := by
  cases n with
  | nil => simp [isIntegerLiteral] at h
  | cons c cs =>
    by_cases hm : c = '-'
    · simpa [isIntegerLiteral, isSignedDecimal, hm] using h
    · by_cases hp : c = '+'
      · subst hp
        simp [isIntegerLiteral, isDigit] at h
      · simpa [isIntegerLiteral, isSignedDecimal, hm, hp] using h

theorem isSignedDecimal_ne_nil {t : List Char} (h : isSignedDecimal t = true) : t ≠ [] := by
  intro e
  subst e
  simp [isSignedDecimal] at h

/-- The characters of a signed decimal integer are neither white space nor
`;`. -/
theorem signedDecimal_char_plain {c : Char} (h : isDigit c = true ∨ c = '-' ∨ c = '+') :
    IsSpace c = false ∧ c ≠ ' ' ∧ c ≠ ';' := by
  rcases h with h | h | h
  · simp only [isDigit, decide_eq_true_eq] at h
    refine ⟨?_, ?_, ?_⟩
    · have h1 : c.toNat ≤ 0xFF := by omega
      simp only [IsSpace, h1, if_true]
      simp
      omega
    · intro e
      subst e
      simp at h
    · intro e
      subst e
      simp at h
  · subst h
    decide
  · subst h
    decide

/-! ## Lemmas on the statement loop -/

theorem loop_all_ok (acc : List VariableDeclaration) (ss : List (List Char))
    (h : ∀ s ∈ ss, (parseVariableDeclaration s).2 = none) :
    ParseToAST.loop acc ss =
      ({ declarations := acc ++ ss.map (fun s => (parseVariableDeclaration s).1) }, none) := by
  induction ss generalizing acc with
  | nil => simp [ParseToAST.loop]
  | cons s rest ih =>
    have hs : (parseVariableDeclaration s).2 = none := h s (by simp)
    have hr : ∀ x ∈ rest, (parseVariableDeclaration x).2 = none :=
      fun x hx => h x (List.mem_cons_of_mem _ hx)
    rw [ParseToAST.loop]
    rcases hp : parseVariableDeclaration s with ⟨d, e⟩
    rw [hp] at hs
    simp only at hs
    subst hs
    simp only [ih _ hr, List.map_cons, hp, List.append_assoc, List.singleton_append]

theorem loop_first_error (acc : List VariableDeclaration) (pre : List (List Char))
    (s : List Char) (post : List (List Char)) (e : ParseError)
    (hpre : ∀ p ∈ pre, (parseVariableDeclaration p).2 = none)
    (hs : (parseVariableDeclaration s).2 = some e) :
    ParseToAST.loop acc (pre ++ s :: post) = (AST.zero, some e) := by
  induction pre generalizing acc with
  | nil =>
    rw [List.nil_append, ParseToAST.loop]
    rcases hp : parseVariableDeclaration s with ⟨d, e2⟩
    rw [hp] at hs
    simp only at hs
    subst hs
    rfl
  | cons p rest ih =>
    have hp1 : (parseVariableDeclaration p).2 = none := hpre p (by simp)
    have hr : ∀ x ∈ rest, (parseVariableDeclaration x).2 = none :=
      fun x hx => hpre x (List.mem_cons_of_mem _ hx)
    rw [List.cons_append, ParseToAST.loop]
    rcases hp : parseVariableDeclaration p with ⟨d, e2⟩
    rw [hp] at hp1
    simp only at hp1
    subst hp1
    exact ih _ hr

theorem exists_first_failure {α : Type} (P : α → Prop) (l : List α) (h : ∃ x ∈ l, P x) :
    ∃ pre x post, l = pre ++ x :: post ∧ (∀ p ∈ pre, ¬ P p) ∧ P x := by
  classical
  induction l with
  | nil => simp at h
  | cons a rest ih =>
    by_cases ha : P a
    · exact ⟨[], a, rest, rfl, by simp, ha⟩
    · have hrest : ∃ x ∈ rest, P x := by
        obtain ⟨x, hx, hP⟩ := h
        rcases List.mem_cons.mp hx with e | e
        · exact absurd (e ▸ hP) ha
        · exact ⟨x, e, hP⟩
      obtain ⟨pre, x, post, hl, hpre, hx⟩ := ih hrest
      refine ⟨a :: pre, x, post, by simp [hl], ?_, hx⟩
      intro p hp
      rcases List.mem_cons.mp hp with e | e
      · exact e ▸ ha
      · exact hpre p e

/-! ## Lemmas on the declarator and declaration parsers -/

theorem parseVariableDeclarator_of_not_mem {code : List Char} (h : '=' ∉ code) :
    parseVariableDeclarator code =
      (VariableDeclarator.zero, some (ParseError.missingAssignmentOperator code)) := by
  simp [parseVariableDeclarator, Cut_of_not_mem h]

theorem parseVariableDeclarator_of_split {l : List Char} (r : List Char) (h : '=' ∉ l) :
    parseVariableDeclarator (l ++ '=' :: r) =
      ({ identifier := (Cut (ReplaceAll l ' ' []) ':').1,
         typeAnnotation := (Cut (ReplaceAll l ' ' []) ':').2.1,
         value := { kind := (parseValue r).2, value := (parseValue r).1, raw := r } }, none) := by
  simp [parseVariableDeclarator, Cut_append_cons r h]

theorem parseVariableDeclarator_ok_iff (code : List Char) :
    (parseVariableDeclarator code).2 = none ↔ '=' ∈ code := by
  constructor
  · intro h
    by_contra hn
    rw [parseVariableDeclarator_of_not_mem hn] at h
    simp at h
  · intro h
    obtain ⟨l, r, hs, hl⟩ := exists_first_occurrence h
    rw [hs, parseVariableDeclarator_of_split r hl]

theorem parseVariableDeclaration_of_no_space {s : List Char} (h : ' ' ∉ TrimSpace s) :
    parseVariableDeclaration s =
      (VariableDeclaration.zero, some (ParseError.missingDeclarationKeyword (TrimSpace s))) := by
  simp [parseVariableDeclaration, Cut_of_not_mem h]

theorem parseVariableDeclaration_of_split {s k : List Char} (rest : List Char)
    (hs : TrimSpace s = k ++ ' ' :: rest) (hk : ' ' ∉ k) :
    parseVariableDeclaration s =
      match parseVariableDeclarator rest with
      | (_, some err) => (VariableDeclaration.zero, some err)
      | (variableDeclarator, none) => ({ kind := k, declarator := variableDeclarator }, none) := by
  simp [parseVariableDeclaration, hs, Cut_append_cons rest hk]

theorem parseVariableDeclaration_split_no_eq {s k : List Char} (rest : List Char)
    (hs : TrimSpace s = k ++ ' ' :: rest) (hk : ' ' ∉ k) (hr : '=' ∉ rest) :
    parseVariableDeclaration s =
      (VariableDeclaration.zero, some (ParseError.missingAssignmentOperator rest)) := by
  rw [parseVariableDeclaration_of_split rest hs hk, parseVariableDeclarator_of_not_mem hr]

theorem parseVariableDeclaration_split_eq {s k : List Char} (rest : List Char)
    (hs : TrimSpace s = k ++ ' ' :: rest) (hk : ' ' ∉ k) (hr : '=' ∈ rest) :
    parseVariableDeclaration s =
      ({ kind := k, declarator := (parseVariableDeclarator rest).1 }, none) := by
  rw [parseVariableDeclaration_of_split rest hs hk]
  have h2 := (parseVariableDeclarator_ok_iff rest).mpr hr
  rcases hp : parseVariableDeclarator rest with ⟨d, e⟩
  rw [hp] at h2
  simp only at h2
  subst h2
  rfl

theorem parseVariableDeclarator_value (code : List Char)
    (h : (parseVariableDeclarator code).2 = none) :
    ((parseVariableDeclarator code).1.value.value, (parseVariableDeclarator code).1.value.kind)
      = parseValue (parseVariableDeclarator code).1.value.raw := by
  obtain ⟨l, r, hs, hl⟩ := exists_first_occurrence ((parseVariableDeclarator_ok_iff code).mp h)
  rw [hs, parseVariableDeclarator_of_split r hl]

theorem parseVariableDeclaration_ok {s : List Char}
    (h : (parseVariableDeclaration s).2 = none) :
    ∃ k rest, TrimSpace s = k ++ ' ' :: rest ∧ ' ' ∉ k ∧ '=' ∈ rest ∧
      parseVariableDeclaration s =
        ({ kind := k, declarator := (parseVariableDeclarator rest).1 }, none) := by
  by_cases hsp : ' ' ∈ TrimSpace s
  · obtain ⟨k, rest, hs, hk⟩ := exists_first_occurrence hsp
    by_cases hr : '=' ∈ rest
    · exact ⟨k, rest, hs, hk, hr, parseVariableDeclaration_split_eq rest hs hk hr⟩
    · rw [parseVariableDeclaration_split_no_eq rest hs hk hr] at h
      simp at h
  · rw [parseVariableDeclaration_of_no_space hsp] at h
    simp at h

theorem parseVariableDeclaration_value (s : List Char)
    (h : (parseVariableDeclaration s).2 = none) :
    ((parseVariableDeclaration s).1.declarator.value.value,
      (parseVariableDeclaration s).1.declarator.value.kind)
      = parseValue (parseVariableDeclaration s).1.declarator.value.raw := by
  obtain ⟨k, rest, -, -, hr, hp⟩ := parseVariableDeclaration_ok h
  rw [hp]
  exact parseVariableDeclarator_value rest ((parseVariableDeclarator_ok_iff rest).mpr hr)

/-- A successful `ParseToAST` parsed every piece successfully and returns the
results in order. -/
theorem ParseToAST_ok {code : List Char} (h : (ParseToAST code).2 = none) :
    (∀ s ∈ Split code ';', (parseVariableDeclaration s).2 = none) ∧
    ParseToAST code =
      ({ declarations := (Split code ';').map (fun s => (parseVariableDeclaration s).1) },
        none) := by
  have hall : ∀ s ∈ Split code ';', (parseVariableDeclaration s).2 = none := by
    by_contra hn
    push_neg at hn
    obtain ⟨pre, s, post, hl, hpre, hs⟩ :=
      exists_first_failure (fun s => (parseVariableDeclaration s).2 ≠ none) _ hn
    obtain ⟨e, he⟩ := Option.ne_none_iff_exists'.mp hs
    have hres : ParseToAST code = (AST.zero, some e) := by
      unfold ParseToAST
      rw [hl]
      exact loop_first_error [] pre s post e (fun p hp => not_not.mp (hpre p hp)) he
    rw [hres] at h
    simp at h
  refine ⟨hall, ?_⟩
  unfold ParseToAST
  rw [loop_all_ok [] _ hall]
  simp

/-- One statement `kw ++ " " ++ l ++ "=" ++ r` without `;`, whose keyword has
no white space, whose `l` has no `=`, and which does not end in white space. -/
theorem ParseToAST_single (kw l r : List Char) (hkw : kw ≠ [])
    (hkws : ∀ c ∈ kw, IsSpace c = false) (hl : '=' ∉ l)
    (hlast : ∀ a, r.getLast? = some a → IsSpace a = false)
    (hsemi : ';' ∉ kw ++ ' ' :: (l ++ '=' :: r)) :
    ParseToAST (kw ++ ' ' :: (l ++ '=' :: r)) =
      ({ declarations := [{ kind := kw, declarator :=
          { identifier := (Cut (ReplaceAll l ' ' []) ':').1,
            typeAnnotation := (Cut (ReplaceAll l ' ' []) ':').2.1,
            value := { kind := (parseValue r).2, value := (parseValue r).1, raw := r } } }] },
        none) := by
  have hk : ' ' ∉ kw := by
    intro hm
    have := hkws ' ' hm
    revert this
    decide
  have htrim : TrimSpace (kw ++ ' ' :: (l ++ '=' :: r)) = kw ++ ' ' :: (l ++ '=' :: r) := by
    apply TrimSpace_eq_self
    · intro a ha
      cases kw with
      | nil => exact absurd rfl hkw
      | cons k ks =>
        simp only [List.cons_append, List.head?_cons, Option.some.injEq] at ha
        exact hkws a (by simp [← ha])
    · intro a ha
      have e : kw ++ ' ' :: (l ++ '=' :: r) = (kw ++ ' ' :: l) ++ '=' :: r := by simp
      rw [e, getLast?_of_suffix_ne_nil (by simp), List.getLast?_cons] at ha
      cases hr : r.getLast? with
      | none =>
        rw [hr] at ha
        simp only [Option.getD_none, Option.some.injEq] at ha
        rw [← ha]
        decide
      | some b =>
        rw [hr] at ha
        simp only [Option.getD_some, Option.some.injEq] at ha
        exact hlast a (by rw [hr, ha])
  have hmem : '=' ∈ l ++ '=' :: r := by simp
  unfold ParseToAST
  rw [Split_of_not_mem hsemi]
  simp only [ParseToAST.loop, parseVariableDeclaration_split_eq _ htrim hk hmem,
    parseVariableDeclarator_of_split r hl, List.nil_append]

/-- The shape of every statement that `parseVariableDeclaration` accepts, and
what it returns for it. -/
theorem parseVariableDeclaration_shape {s : List Char}
    (h : (parseVariableDeclaration s).2 = none) :
    ∃ k L r, TrimSpace s = k ++ ' ' :: (L ++ '=' :: r) ∧ k ≠ [] ∧ ' ' ∉ k ∧ '=' ∉ L ∧
      parseVariableDeclaration s =
        ({ kind := k, declarator :=
            { identifier := (Cut (removeSpaces L) ':').1,
              typeAnnotation := (Cut (removeSpaces L) ':').2.1,
              value := { kind := (parseValue r).2, value := (parseValue r).1, raw := r } } },
          none) := by
  obtain ⟨k, rest, hs, hk, hr, hp⟩ := parseVariableDeclaration_ok h
  obtain ⟨L, r, hrest, hL⟩ := exists_first_occurrence hr
  refine ⟨k, L, r, by rw [hs, hrest], ?_, hk, hL, ?_⟩
  · intro hk0
    subst hk0
    have := TrimSpace_head_not_space s ' ' (by rw [hs]; rfl)
    revert this
    decide
  · rw [hp, hrest, parseVariableDeclarator_of_split r hL, removeSpaces_eq]

theorem not_mem_Cut_fst (s : List Char) (sep : Char) : sep ∉ (Cut s sep).1 := by
  by_cases h : sep ∈ s
  · obtain ⟨b, a, hs, hb⟩ := exists_first_occurrence h
    rw [hs, Cut_append_cons a hb]
    exact hb
  · rw [Cut_of_not_mem h]
    exact h

theorem not_mem_removeSpaces (s : List Char) : ' ' ∉ removeSpaces s := by
  intro h
  simp [removeSpaces] at h

theorem Cut_fst_eq_nil_iff (s : List Char) (sep : Char) :
    (Cut s sep).1 = [] ↔ s = [] ∨ s.head? = some sep := by
  by_cases h : sep ∈ s
  · obtain ⟨b, a, hs, hb⟩ := exists_first_occurrence h
    rw [hs, Cut_append_cons a hb]
    cases b with
    | nil => simp
    | cons c cs =>
      have hc : c ≠ sep := fun e => hb (by simp [e])
      simp [hc]
  · rw [Cut_of_not_mem h]
    constructor
    · intro e
      exact Or.inl e
    · rintro (e | e)
      · exact e
      · exact absurd (List.mem_of_mem_head? e) h

theorem isBlank_IsSpace {c : Char} (h : isBlank c = true) : IsSpace c = true := by
  simp only [isBlank, Bool.or_eq_true, beq_iff_eq] at h
  have h1 : c.toNat ≤ 0xFF := by omega
  simp only [IsSpace, h1, if_true]
  simp
  omega

/-- A failing piece anywhere makes `ParseToAST` return an error and `AST{}`. -/
theorem ParseToAST_of_failing_piece {code : List Char}
    (h : ∃ s ∈ Split code ';', (parseVariableDeclaration s).2 ≠ none) :
    ∃ e, ParseToAST code = (AST.zero, some e) := by
  obtain ⟨pre, s, post, hl, hpre, hs⟩ :=
    exists_first_failure (fun s => (parseVariableDeclaration s).2 ≠ none) _ h
  obtain ⟨e, he⟩ := Option.ne_none_iff_exists'.mp hs
  refine ⟨e, ?_⟩
  unfold ParseToAST
  rw [hl]
  exact loop_first_error [] pre s post e (fun p hp => not_not.mp (hpre p hp)) he

theorem parseValue_of_all_space {r : List Char} (hr : ∀ c ∈ r, c = ' ') :
    parseValue r = (Value.str [], "StringLiteral".toList) := by
  have ht : Trim r ' ' = [] := by
    have := Trim_sandwich r [] [] ' ' hr (by simp) (by simp) (by simp)
    simpa using this
  simp only [parseValue, ht]
  rfl

/-! ## The claims -/

/-- C1 as stated fails: `"const a = 9223372036854775808"` has the shape
`"<kw> <id> = <n>"` with a bare integer literal `<n>`, yet the literal is
classified `"StringLiteral"` and its value is the text, not the integer
(the integer does not fit Go's `int`, so `strconv.Atoi` reports an error). -/
theorem C1_integer_out_of_range_is_string :
    isToken "const".toList ∧ isToken "a".toList ∧
    isIntegerLiteral "9223372036854775808".toList = true ∧
    ParseToAST ("const".toList ++ " ".toList ++ "a".toList ++ " = ".toList
        ++ "9223372036854775808".toList) =
      ({ declarations := [{ kind := "const".toList, declarator :=
          { identifier := "a".toList, typeAnnotation := [],
            value := { kind := "StringLiteral".toList,
                       value := Value.str "9223372036854775808".toList,
                       raw := " 9223372036854775808".toList } } }] }, none) := by
  decide

/-- C1 (amended). For every input of the shape `"<kw> <id> = <n>"`, where
`<kw>` and `<id>` are non-empty tokens without white space, `=`, `:` or `;`,
and `<n>` is a bare integer literal (a non-empty run of decimal digits,
optionally preceded by a minus sign) whose value fits Go's `int`
(`-2^63 ≤ n < 2^63`), `ParseToAST` returns no error and a tree with exactly one
declaration, of kind `<kw>`, identifier `<id>`, empty type, and a literal of
kind `"NumericLiteral"` whose value is the integer denoted by `<n>`. -/
theorem C1_integer_declaration (kw id n : List Char) (hkw : isToken kw) (hid : isToken id)
    (hn : isIntegerLiteral n = true) (hfit : fitsInt (signedValue n)) :
    ParseToAST (kw ++ " ".toList ++ id ++ " = ".toList ++ n) =
      ({ declarations := [{ kind := kw, declarator :=
          { identifier := id, typeAnnotation := [],
            value := { kind := "NumericLiteral".toList, value := Value.int (signedValue n),
                       raw := ' ' :: n } } }] }, none) := by
  have hsd := isSignedDecimal_of_isIntegerLiteral hn
  have hch : ∀ c ∈ n, IsSpace c = false ∧ c ≠ ' ' ∧ c ≠ ';' :=
    fun c hc => signedDecimal_char_plain (isSignedDecimal_chars hsd c hc)
  have hnne := isSignedDecimal_ne_nil hsd
  have hidsp : ' ' ∉ id := by
    intro hm
    have := (hid.2 ' ' hm).1
    revert this
    decide
  have e : kw ++ " ".toList ++ id ++ " = ".toList ++ n
      = kw ++ ' ' :: ((id ++ [' ']) ++ '=' :: (' ' :: n)) := by
    change kw ++ [' '] ++ id ++ [' ', '=', ' '] ++ n = _
    simp
  have hlastn : ∀ a, n.getLast? = some a → a ∈ n := by
    intro a ha
    obtain ⟨ys, hys⟩ := List.getLast?_eq_some_iff.mp ha
    rw [hys]
    simp
  have htrim : Trim (' ' :: n) ' ' = n := by
    have := Trim_sandwich [' '] n [] ' ' (by simp) (by simp)
      (by
        intro hh
        cases n with
        | nil => exact hnne rfl
        | cons a rest =>
          simp only [List.head?_cons, Option.some.injEq] at hh
          exact (hch a (by simp)).2.1 hh)
      (fun hl => (hch ' ' (hlastn _ hl)).2.1 rfl)
    simpa using this
  rw [e, ParseToAST_single kw (id ++ [' ']) (' ' :: n) hkw.1 (fun c hc => (hkw.2 c hc).1)]
  · have hrep : ReplaceAll (id ++ [' ']) ' ' [] = id := by
      rw [ReplaceAll_append, ReplaceAll_nil_of_not_mem hidsp]
      simp [ReplaceAll]
    have hcolon : ':' ∉ id := fun hm => (hid.2 ':' hm).2.2.1 rfl
    rw [hrep, Cut_of_not_mem hcolon, parseValue_eq, htrim, if_pos ⟨hsd, hfit⟩]
  · intro hm
    rcases List.mem_append.mp hm with h | h
    · exact (hid.2 '=' h).2.1 rfl
    · simp at h
  · intro a ha
    have ha2 : ([' '] ++ n).getLast? = some a := ha
    rw [getLast?_of_suffix_ne_nil hnne] at ha2
    exact (hch a (hlastn a ha2)).1
  · intro hm
    simp only [List.mem_append, List.mem_cons, List.mem_singleton] at hm
    rcases hm with h | h | (h | h) | h | h | h
    · exact (hkw.2 ';' h).2.2.2 rfl
    · revert h; decide
    · exact (hid.2 ';' h).2.2.2 rfl
    · simp at h
    · revert h; decide
    · revert h; decide
    · exact (hch ';' h).2.2 rfl

/-- Witness for C1: `"const a = 1"` and `"let b = 2"`. -/
theorem C1_integer_declaration_witness :
    (isToken "const".toList ∧ isToken "a".toList ∧ isIntegerLiteral "1".toList = true ∧
      fitsInt (signedValue "1".toList)) ∧
    ParseToAST "const a = 1".toList =
      ({ declarations := [{ kind := "const".toList, declarator :=
          { identifier := "a".toList, typeAnnotation := [],
            value := { kind := "NumericLiteral".toList, value := Value.int 1,
                       raw := " 1".toList } } }] }, none) ∧
    ParseToAST "let b = 2".toList =
      ({ declarations := [{ kind := "let".toList, declarator :=
          { identifier := "b".toList, typeAnnotation := [],
            value := { kind := "NumericLiteral".toList, value := Value.int 2,
                       raw := " 2".toList } } }] }, none) :=
  ⟨by decide,
   C1_integer_declaration "const".toList "a".toList "1".toList
     (by decide) (by decide) (by decide) (by decide),
   C1_integer_declaration "let".toList "b".toList "2".toList
     (by decide) (by decide) (by decide) (by decide)⟩

/-- C2. For every input of the shape `"<kw> <id> : <type> = '<text>'"`, where
`<kw>` and `<id>` are non-empty tokens without white space, `=`, `:` or `;`,
`<type>` contains no `=` or `;` and `<text>` contains no `;`, `ParseToAST`
returns no error and one declaration whose type is `<type>` with its space
characters removed and whose literal has kind `"StringLiteral"` and value the
quoted text, both quote characters included. -/
theorem C2_typed_string_declaration (kw id ty text : List Char) (hkw : isToken kw)
    (hid : isToken id) (htyeq : '=' ∉ ty) (htysemi : ';' ∉ ty) (htext : ';' ∉ text) :
    ParseToAST (kw ++ " ".toList ++ id ++ " : ".toList ++ ty ++ " = ".toList
        ++ "'".toList ++ text ++ "'".toList) =
      ({ declarations := [{ kind := kw, declarator :=
          { identifier := id, typeAnnotation := ty.filter (fun c => c != ' '),
            value := { kind := "StringLiteral".toList,
                       value := Value.str ("'".toList ++ text ++ "'".toList),
                       raw := " '".toList ++ text ++ "'".toList } } }] }, none) := by
  have hidsp : ' ' ∉ id := by
    intro hm
    have := (hid.2 ' ' hm).1
    revert this
    decide
  have e : kw ++ " ".toList ++ id ++ " : ".toList ++ ty ++ " = ".toList
        ++ "'".toList ++ text ++ "'".toList
      = kw ++ ' ' :: ((id ++ ' ' :: ':' :: ' ' :: (ty ++ [' ']))
          ++ '=' :: (' ' :: (Char.ofNat 39 :: text ++ [Char.ofNat 39]))) := by
    change kw ++ [' '] ++ id ++ [' ', ':', ' '] ++ ty ++ [' ', '=', ' ']
        ++ [Char.ofNat 39] ++ text ++ [Char.ofNat 39] = _
    simp
  have htrim : Trim (' ' :: (Char.ofNat 39 :: text ++ [Char.ofNat 39])) ' '
      = Char.ofNat 39 :: text ++ [Char.ofNat 39] := by
    have := Trim_sandwich [' '] (Char.ofNat 39 :: text ++ [Char.ofNat 39]) [] ' '
      (by simp) (by simp)
      (by
        simp only [List.cons_append, List.head?_cons, ne_eq, Option.some.injEq]
        decide)
      (by
        rw [List.getLast?_concat]
        simp only [ne_eq, Option.some.injEq]
        decide)
    simpa using this
  change _ = ({ declarations := [{ kind := kw, declarator :=
          { identifier := id, typeAnnotation := ty.filter (fun c => c != ' '),
            value := { kind := "StringLiteral".toList,
                       value := Value.str (Char.ofNat 39 :: text ++ [Char.ofNat 39]),
                       raw := ' ' :: (Char.ofNat 39 :: text ++ [Char.ofNat 39]) } } }] }, none)
  rw [e, ParseToAST_single kw (id ++ ' ' :: ':' :: ' ' :: (ty ++ [' ']))
    (' ' :: (Char.ofNat 39 :: text ++ [Char.ofNat 39])) hkw.1 (fun c hc => (hkw.2 c hc).1)]
  · have hrep : ReplaceAll (id ++ ' ' :: ':' :: ' ' :: (ty ++ [' '])) ' ' []
        = id ++ ':' :: ty.filter (fun c => c != ' ') := by
      rw [ReplaceAll_append, ReplaceAll_nil_of_not_mem hidsp]
      simp [ReplaceAll, ReplaceAll_append, ReplaceAll_nil_eq_filter]
    have hcolon : ':' ∉ id := fun hm => (hid.2 ':' hm).2.2.1 rfl
    have hato : Atoi (Char.ofNat 39 :: text ++ [Char.ofNat 39]) = none :=
      Atoi_eq_none_of_mem (c := Char.ofNat 39) (by simp) (by decide) (by decide) (by decide)
    rw [hrep, Cut_append_cons _ hcolon]
    simp only [parseValue, htrim, hato]
  · intro hm
    simp only [List.mem_append, List.mem_cons, List.mem_singleton] at hm
    rcases hm with h | h | h | h | h | h
    · exact (hid.2 '=' h).2.1 rfl
    · revert h; decide
    · revert h; decide
    · revert h; decide
    · exact htyeq h
    · revert h; decide
  · intro a ha
    have ha2 : ((' ' :: Char.ofNat 39 :: text) ++ [Char.ofNat 39]).getLast? = some a := ha
    rw [List.getLast?_concat] at ha2
    rw [← Option.some.inj ha2]
    decide
  · intro hm
    simp only [List.mem_append, List.mem_cons, List.mem_singleton] at hm
    rcases hm with h | h | (h | h | h | h | h | h) | h | h | (h | h) | h
    · exact (hkw.2 ';' h).2.2.2 rfl
    · revert h; decide
    · exact (hid.2 ';' h).2.2.2 rfl
    · revert h; decide
    · revert h; decide
    · revert h; decide
    · exact htysemi h
    · revert h; decide
    · revert h; decide
    · revert h; decide
    · revert h; decide
    · exact htext h
    · revert h; decide

/-- Witness for C2: `"const foo : string = 'hello world'"` gives type `"string"`
and value `"'hello world'"`. -/
theorem C2_typed_string_declaration_witness :
    (isToken "const".toList ∧ isToken "foo".toList ∧ '=' ∉ "string".toList ∧
      ';' ∉ "string".toList ∧ ';' ∉ "hello world".toList) ∧
    ParseToAST "const foo : string = 'hello world'".toList =
      ({ declarations := [{ kind := "const".toList, declarator :=
          { identifier := "foo".toList, typeAnnotation := "string".toList,
            value := { kind := "StringLiteral".toList,
                       value := Value.str "'hello world'".toList,
                       raw := " 'hello world'".toList } } }] }, none) :=
  ⟨by decide,
   C2_typed_string_declaration "const".toList "foo".toList "string".toList
     "hello world".toList (by decide) (by decide) (by decide) (by decide) (by decide)⟩

/-- C3. Splitting is order-preserving: for a non-empty list of statements
`s_1 .. s_n`, none containing `;`, each of which `parseVariableDeclaration`
parses successfully with result `d_i`, `ParseToAST` applied to
`s_1 ++ ";" ++ ... ++ ";" ++ s_n` returns no error and the tree whose
declarations are exactly `[d_1, ..., d_n]`, in that order. -/
theorem C3_split_order_preserving (ss : List (List Char)) (hne : ss ≠ [])
    (hsemi : ∀ s ∈ ss, ';' ∉ s)
    (hok : ∀ s ∈ ss, (parseVariableDeclaration s).2 = none) :
    ParseToAST (joinWith ';' ss) =
      ({ declarations := ss.map (fun s => (parseVariableDeclaration s).1) }, none) := by
  unfold ParseToAST
  rw [Split_joinWith ss hne hsemi, loop_all_ok [] ss hok]
  simp

/-- Witness for C3: `"const a = 1; let b = 2"` gives declaration 0 = (const, a)
and declaration 1 = (let, b). -/
theorem C3_split_order_preserving_witness :
    joinWith ';' ["const a = 1".toList, " let b = 2".toList] = "const a = 1; let b = 2".toList ∧
    ParseToAST "const a = 1; let b = 2".toList =
      ({ declarations :=
          [{ kind := "const".toList, declarator :=
              { identifier := "a".toList, typeAnnotation := [],
                value := { kind := "NumericLiteral".toList, value := Value.int 1,
                           raw := " 1".toList } } },
           { kind := "let".toList, declarator :=
              { identifier := "b".toList, typeAnnotation := [],
                value := { kind := "NumericLiteral".toList, value := Value.int 2,
                           raw := " 2".toList } } }] }, none) :=
  ⟨by decide,
   C3_split_order_preserving ["const a = 1".toList, " let b = 2".toList]
     (by decide) (by decide) (by decide)⟩

/-- C4. Fail-fast with no partial tree: whenever at least one `;`-separated
statement of the source makes `parseVariableDeclaration` fail, the pieces split
as `pre ++ s :: post` with every statement of `pre` parsing successfully and
`s` failing with error `e` (so `s` is the first failing statement), and
`ParseToAST` returns exactly `e` together with the empty tree, whatever `pre`
and `post` are. -/
theorem C4_fail_fast_empty_tree (code : List Char)
    (h : ∃ s ∈ Split code ';', (parseVariableDeclaration s).2 ≠ none) :
    ∃ pre s post e, Split code ';' = pre ++ s :: post ∧
      (∀ p ∈ pre, (parseVariableDeclaration p).2 = none) ∧
      (parseVariableDeclaration s).2 = some e ∧
      ParseToAST code = ({ declarations := [] }, some e) := by
  obtain ⟨pre, s, post, hl, hpre, hs⟩ :=
    exists_first_failure (fun s => (parseVariableDeclaration s).2 ≠ none) _ h
  have hpre2 : ∀ p ∈ pre, (parseVariableDeclaration p).2 = none :=
    fun p hp => not_not.mp (hpre p hp)
  obtain ⟨e, he⟩ := Option.ne_none_iff_exists'.mp hs
  refine ⟨pre, s, post, e, hl, hpre2, he, ?_⟩
  unfold ParseToAST
  rw [hl]
  exact loop_first_error [] pre s post e hpre2 he

/-- Witness for C4: in `"const a = 1;b;c d"` the second statement is the first
to fail; its error is returned with the empty tree. -/
theorem C4_fail_fast_empty_tree_witness :
    ∃ pre s post e, Split "const a = 1;b;c d".toList ';' = pre ++ s :: post ∧
      (∀ p ∈ pre, (parseVariableDeclaration p).2 = none) ∧
      (parseVariableDeclaration s).2 = some e ∧
      ParseToAST "const a = 1;b;c d".toList = ({ declarations := [] }, some e) :=
  C4_fail_fast_empty_tree "const a = 1;b;c d".toList ⟨"b".toList, by decide, by decide⟩

/-- C5. `parseVariableDeclaration` fails with the MissingDeclarationKeyword
error (`"[VariableDeclaration] Could not find ' ' in ..."`) if and only if the
statement, after leading and trailing white space is stripped, contains no
space character; the error then carries the stripped statement. The empty
input makes `ParseToAST` return this error (with the empty tree). -/
theorem C5_missing_keyword_iff (s : List Char) :
    ((∃ c, (parseVariableDeclaration s).2 = some (ParseError.missingDeclarationKeyword c))
        ↔ ' ' ∉ TrimSpace s) ∧
    (' ' ∉ TrimSpace s → parseVariableDeclaration s =
        (VariableDeclaration.zero, some (ParseError.missingDeclarationKeyword (TrimSpace s)))) ∧
    ParseToAST [] = (AST.zero, some (ParseError.missingDeclarationKeyword [])) ∧
    (ParseToAST []).2.map ParseError.Error =
      some "[VariableDeclaration] Could not find ' ' in ".toList := by
  refine ⟨⟨?_, ?_⟩, fun h => parseVariableDeclaration_of_no_space h, by decide, by decide⟩
  · rintro ⟨c, hc⟩ hmem
    obtain ⟨k, rest, hs, hk⟩ := exists_first_occurrence hmem
    by_cases hr : '=' ∈ rest
    · rw [parseVariableDeclaration_split_eq rest hs hk hr] at hc
      simp at hc
    · rw [parseVariableDeclaration_split_no_eq rest hs hk hr] at hc
      simp at hc
  · intro h
    exact ⟨TrimSpace s, by rw [parseVariableDeclaration_of_no_space h]⟩

/-- C6. `parseVariableDeclarator` fails if and only if the declarator text
contains no `=`, and the failure is the MissingAssignmentOperator error
(`"[VariableDeclarator] Could not find '=' in ..."`); consequently
`parseVariableDeclaration` fails with MissingAssignmentOperator exactly when the
white-space-stripped statement contains a space but the text after its first
space contains no `=`. `"const a 1"` yields MissingAssignmentOperator from
`ParseToAST`. -/
theorem C6_missing_assignment_iff (code s : List Char) :
    ((parseVariableDeclarator code).2 ≠ none ↔ '=' ∉ code) ∧
    ((parseVariableDeclarator code).2 ≠ none → parseVariableDeclarator code =
        (VariableDeclarator.zero, some (ParseError.missingAssignmentOperator code))) ∧
    ((∃ c, (parseVariableDeclaration s).2 = some (ParseError.missingAssignmentOperator c))
        ↔ ∃ k rest, TrimSpace s = k ++ ' ' :: rest ∧ ' ' ∉ k ∧ '=' ∉ rest) ∧
    ParseToAST "const a 1".toList =
      (AST.zero, some (ParseError.missingAssignmentOperator "a 1".toList)) ∧
    (ParseToAST "const a 1".toList).2.map ParseError.Error =
      some "[VariableDeclarator] Could not find '=' in a 1".toList := by
  have h1 : (parseVariableDeclarator code).2 ≠ none ↔ '=' ∉ code := by
    rw [Ne, parseVariableDeclarator_ok_iff]
  refine ⟨h1, fun h => parseVariableDeclarator_of_not_mem (h1.mp h), ⟨?_, ?_⟩,
    by decide, by decide⟩
  · rintro ⟨c, hc⟩
    by_cases hsp : ' ' ∈ TrimSpace s
    · obtain ⟨k, rest, hs, hk⟩ := exists_first_occurrence hsp
      refine ⟨k, rest, hs, hk, ?_⟩
      intro hr
      rw [parseVariableDeclaration_split_eq rest hs hk hr] at hc
      simp at hc
    · rw [parseVariableDeclaration_of_no_space hsp] at hc
      simp at hc
  · rintro ⟨k, rest, hs, hk, hr⟩
    exact ⟨rest, by rw [parseVariableDeclaration_split_no_eq rest hs hk hr]⟩

/-- C7. Decimal numbers are never classified numeric: for every raw value text
`v` that contains a `.`, `parseValue` returns kind `"StringLiteral"` with value
the text with its surrounding spaces trimmed; hence in every tree that
`ParseToAST` returns without error, a declaration whose raw text is `v` has a
literal of kind `"StringLiteral"` (with that value). -/
theorem C7_decimal_point_is_string (v : List Char) (h : '.' ∈ v) :
    parseValue v = (Value.str (Trim v ' '), "StringLiteral".toList) ∧
    ∀ code d, (ParseToAST code).2 = none → d ∈ (ParseToAST code).1.declarations →
      d.declarator.value.raw = v →
      d.declarator.value.kind = "StringLiteral".toList ∧
      d.declarator.value.value = Value.str (Trim v ' ') := by
  have hpv : parseValue v = (Value.str (Trim v ' '), "StringLiteral".toList) := by
    have hmem : '.' ∈ Trim v ' ' := mem_Trim_of_ne h (by decide)
    have hato : Atoi (Trim v ' ') = none :=
      Atoi_eq_none_of_mem hmem (by decide) (by decide) (by decide)
    simp only [parseValue, hato]
  refine ⟨hpv, ?_⟩
  intro code d hok hd hraw
  obtain ⟨hall, hres⟩ := ParseToAST_ok hok
  rw [hres] at hd
  simp only [List.mem_map] at hd
  obtain ⟨s, hs, hds⟩ := hd
  have hval := parseVariableDeclaration_value s (hall s hs)
  rw [hds, hraw, hpv] at hval
  simp only [Prod.mk.injEq] at hval
  exact ⟨hval.2, hval.1⟩

/-- Witness for C7: `"var bar:number=45.123"` gives a `"StringLiteral"` with
value `"45.123"`. -/
theorem C7_decimal_point_is_string_witness :
    '.' ∈ "45.123".toList ∧
    parseValue "45.123".toList = (Value.str "45.123".toList, "StringLiteral".toList) ∧
    ParseToAST "var bar:number=45.123".toList =
      ({ declarations := [{ kind := "var".toList, declarator :=
          { identifier := "bar".toList, typeAnnotation := "number".toList,
            value := { kind := "StringLiteral".toList, value := Value.str "45.123".toList,
                       raw := "45.123".toList } } }] }, none) ∧
    ∀ d ∈ (ParseToAST "var bar:number=45.123".toList).1.declarations,
      d.declarator.value.raw = "45.123".toList →
      d.declarator.value.kind = "StringLiteral".toList ∧
      d.declarator.value.value = Value.str "45.123".toList :=
  ⟨by decide, (C7_decimal_point_is_string "45.123".toList (by decide)).1, by decide,
   fun d hd hraw => (C7_decimal_point_is_string "45.123".toList (by decide)).2
     "var bar:number=45.123".toList d (by decide) hd hraw⟩

/-- C8 as stated fails: `"9223372036854775808"` (it has no surrounding spaces to
remove) is a signed decimal integer, yet `parseValue` classifies it as
`"StringLiteral"` and keeps the text as its value, because the integer does not
fit Go's `int`. -/
theorem C8_signed_decimal_not_numeric :
    Trim "9223372036854775808".toList ' ' = "9223372036854775808".toList ∧
    isSignedDecimal "9223372036854775808".toList = true ∧
    signedValue "9223372036854775808".toList = 9223372036854775808 ∧
    parseValue "9223372036854775808".toList =
      (Value.str "9223372036854775808".toList, "StringLiteral".toList) ∧
    (parseValue "9223372036854775808".toList).2 ≠ "NumericLiteral".toList := by
  decide

/-- C8 (amended). Literal classification is total and two-valued: for every raw
text `v`, `parseValue` returns a kind that is either `"NumericLiteral"` or
`"StringLiteral"`, and the kind is `"NumericLiteral"` if and only if `v` with its
leading and trailing space characters removed is a signed decimal integer (an
optional `+` or `-`, then one or more decimal digits) whose value fits Go's
`int` (`-2^63 ≤ n < 2^63`); in that case the value is that integer. -/
theorem C8_classification_two_valued (v : List Char) :
    ((parseValue v).2 = "NumericLiteral".toList ∨ (parseValue v).2 = "StringLiteral".toList) ∧
    ((parseValue v).2 = "NumericLiteral".toList ↔
      (isSignedDecimal (Trim v ' ') = true ∧ fitsInt (signedValue (Trim v ' ')))) ∧
    ((parseValue v).2 = "NumericLiteral".toList →
      (parseValue v).1 = Value.int (signedValue (Trim v ' '))) := by
  rw [parseValue_eq]
  by_cases hc : isSignedDecimal (Trim v ' ') = true ∧ fitsInt (signedValue (Trim v ' '))
  · rw [if_pos hc]
    exact ⟨Or.inl rfl, ⟨fun _ => hc, fun _ => rfl⟩, fun _ => rfl⟩
  · rw [if_neg hc]
    refine ⟨Or.inr rfl, ⟨fun h => ?_, fun h => absurd h hc⟩, fun h => ?_⟩
    · exact absurd h.symm numeric_ne_string
    · exact absurd h.symm numeric_ne_string

/-- C9. For every raw text classified as `"StringLiteral"`, the literal value is
exactly the raw text with leading and trailing space characters (only `' '`)
removed and nothing else changed: the raw text is a run of spaces, then the
value, then a run of spaces, and the value neither starts nor ends with a
space; quote characters are therefore retained. -/
theorem C9_string_value_is_trimmed_raw (v : List Char)
    (h : (parseValue v).2 = "StringLiteral".toList) :
    ∃ l t r, (parseValue v).1 = Value.str t ∧ v = l ++ t ++ r ∧
      (∀ x ∈ l, x = ' ') ∧ (∀ x ∈ r, x = ' ') ∧
      t.head? ≠ some ' ' ∧ t.getLast? ≠ some ' ' := by
  obtain ⟨l, r, hv, hl, hr, hh, hlast⟩ := Trim_decomp v ' '
  refine ⟨l, Trim v ' ', r, ?_, hv, hl, hr, hh, hlast⟩
  rw [parseValue_eq] at h ⊢
  by_cases hc : isSignedDecimal (Trim v ' ') = true ∧ fitsInt (signedValue (Trim v ' '))
  · rw [if_pos hc] at h
    exact absurd h numeric_ne_string
  · rw [if_neg hc]

/-- Witness for C9: `"var foo = 'hello'"` has raw text `" 'hello'"` and value
`"'hello'"`, 7 characters with both quotes. -/
theorem C9_string_value_is_trimmed_raw_witness :
    (parseValue " 'hello'".toList).2 = "StringLiteral".toList ∧
    ParseToAST "var foo = 'hello'".toList =
      ({ declarations := [{ kind := "var".toList, declarator :=
          { identifier := "foo".toList, typeAnnotation := [],
            value := { kind := "StringLiteral".toList, value := Value.str "'hello'".toList,
                       raw := " 'hello'".toList } } }] }, none) ∧
    "'hello'".toList.length = 7 ∧
    ∃ l t r, (parseValue " 'hello'".toList).1 = Value.str t ∧
      " 'hello'".toList = l ++ t ++ r ∧
      (∀ x ∈ l, x = ' ') ∧ (∀ x ∈ r, x = ' ') ∧
      t.head? ≠ some ' ' ∧ t.getLast? ≠ some ' ' :=
  ⟨by decide, by decide, by decide,
   C9_string_value_is_trimmed_raw " 'hello'".toList (by decide)⟩

/-- C10. For every declarator text on which `parseVariableDeclarator` succeeds,
the literal's `raw` field is exactly the text to the right of the first `=` of
the declarator text, unmodified: the text is `l ++ "=" ++ raw` with no `=` in
`l`, so leading spaces and any further `=` stay in `raw`. -/
theorem C10_raw_is_right_of_first_eq (code : List Char)
    (h : (parseVariableDeclarator code).2 = none) :
    ∃ l, '=' ∉ l ∧ code = l ++ '=' :: (parseVariableDeclarator code).1.value.raw := by
  obtain ⟨l, r, hs, hl⟩ := exists_first_occurrence ((parseVariableDeclarator_ok_iff code).mp h)
  refine ⟨l, hl, ?_⟩
  rw [hs, parseVariableDeclarator_of_split r hl]

/-- Witness for C10: the declarator `"a = b = c"` gives raw `" b = c"`. -/
theorem C10_raw_is_right_of_first_eq_witness :
    (parseVariableDeclarator "a = b = c".toList).2 = none ∧
    (parseVariableDeclarator "a = b = c".toList).1.value.raw = " b = c".toList ∧
    ∃ l, '=' ∉ l ∧ "a = b = c".toList = l ++ '=' :: " b = c".toList :=
  ⟨by decide, by decide, C10_raw_is_right_of_first_eq "a = b = c".toList (by decide)⟩

/-- C11. For every declarator text containing `=`, with `L` the text before its
first `=` and `L1` the result of deleting every space character from `L`
(embedded spaces too): the declarator is parsed without error; if `L1` contains
no `:` the identifier is `L1` and the type is empty; if `L1` is `i ++ ":" ++ t`
with no `:` in `i` (so this `:` is its first one) the identifier is `i` and the
type is `t`, later `:` characters included; the identifier never contains
`:`. -/
theorem C11_identifier_and_type (L r : List Char) (hL : '=' ∉ L) :
    (parseVariableDeclarator (L ++ '=' :: r)).2 = none ∧
    (':' ∉ removeSpaces L →
      (parseVariableDeclarator (L ++ '=' :: r)).1.identifier = removeSpaces L ∧
      VariableDeclarator.typeAnnotation (parseVariableDeclarator (L ++ '=' :: r)).1 = []) ∧
    (∀ i t, removeSpaces L = i ++ ':' :: t → ':' ∉ i →
      (parseVariableDeclarator (L ++ '=' :: r)).1.identifier = i ∧
      VariableDeclarator.typeAnnotation (parseVariableDeclarator (L ++ '=' :: r)).1 = t) ∧
    ':' ∉ (parseVariableDeclarator (L ++ '=' :: r)).1.identifier := by
  rw [parseVariableDeclarator_of_split r hL, removeSpaces_eq]
  refine ⟨rfl, ?_, ?_, ?_⟩
  · intro h
    rw [Cut_of_not_mem h]
    exact ⟨rfl, rfl⟩
  · intro i t hit hi
    rw [hit, Cut_append_cons t hi]
    exact ⟨rfl, rfl⟩
  · exact not_mem_Cut_fst _ _

/-- Witness for C11: in `"f o o : a : b = 1"` the left part `"f o o : a : b "`
loses its spaces, the identifier is `"foo"` and the type is `"a:b"`. -/
theorem C11_identifier_and_type_witness :
    '=' ∉ "f o o : a : b ".toList ∧
    removeSpaces "f o o : a : b ".toList = "foo:a:b".toList ∧
    (parseVariableDeclarator "f o o : a : b = 1".toList).2 = none ∧
    (parseVariableDeclarator "f o o : a : b = 1".toList).1.identifier = "foo".toList ∧
    VariableDeclarator.typeAnnotation (parseVariableDeclarator "f o o : a : b = 1".toList).1
      = "a:b".toList :=
  ⟨by decide, by decide,
   (C11_identifier_and_type "f o o : a : b ".toList " 1".toList (by decide)).1,
   ((C11_identifier_and_type "f o o : a : b ".toList " 1".toList (by decide)).2.2.1
      "foo".toList "a:b".toList (by decide) (by decide)).1,
   ((C11_identifier_and_type "f o o : a : b ".toList " 1".toList (by decide)).2.2.1
      "foo".toList "a:b".toList (by decide) (by decide)).2⟩

/-- C12. For every input string that contains no `;`, `ParseToAST` either
returns an error or returns a tree with exactly one declaration; more
generally, whenever `ParseToAST` succeeds, the number of declarations is the
number of `;` characters of the input plus one. -/
theorem C12_declaration_count (code : List Char) :
    ((ParseToAST code).2 = none →
      (ParseToAST code).1.declarations.length = code.count ';' + 1) ∧
    (';' ∉ code →
      (ParseToAST code).2 ≠ none ∨ (ParseToAST code).1.declarations.length = 1) := by
  have h1 : (ParseToAST code).2 = none →
      (ParseToAST code).1.declarations.length = code.count ';' + 1 := by
    intro hok
    rw [(ParseToAST_ok hok).2]
    simp only [List.length_map, length_Split]
  refine ⟨h1, ?_⟩
  intro hsemi
  by_cases hok : (ParseToAST code).2 = none
  · right
    rw [h1 hok, List.count_eq_zero_of_not_mem hsemi]
  · left
    exact hok

/-- C13 as stated fails: `"const = 1"` is parsed without error and the
identifier of its declaration is the empty string. -/
theorem C13_empty_identifier_accepted :
    ParseToAST "const = 1".toList =
      ({ declarations := [{ kind := "const".toList, declarator :=
          { identifier := [], typeAnnotation := [],
            value := { kind := "NumericLiteral".toList, value := Value.int 1,
                       raw := " 1".toList } } }] }, none) ∧
    (ParseToAST "const = 1".toList).1.declarations.map (fun d => d.declarator.identifier)
      = [[]] := by
  decide

/-- C13 (amended). For every input on which `ParseToAST` returns no error, the
declarations are the results of the `;`-separated statements in order, every
stripped statement has the form `k ++ " " ++ L ++ "=" ++ r` (first space after
`k`, first `=` after `L`), and the identifier of its declaration is non-empty
if and only if `L` contains a non-space character and the first such character
is not `:`. -/
theorem C13_identifier_nonempty_iff (code : List Char) (hok : (ParseToAST code).2 = none) :
    (ParseToAST code).1.declarations =
      (Split code ';').map (fun s => (parseVariableDeclaration s).1) ∧
    ∀ s ∈ Split code ';', ∃ k L r,
      TrimSpace s = k ++ ' ' :: (L ++ '=' :: r) ∧ ' ' ∉ k ∧ '=' ∉ L ∧
      ((parseVariableDeclaration s).1.declarator.identifier ≠ [] ↔
        (removeSpaces L ≠ [] ∧ (removeSpaces L).head? ≠ some ':')) := by
  obtain ⟨hall, hres⟩ := ParseToAST_ok hok
  refine ⟨by rw [hres], ?_⟩
  intro s hs
  obtain ⟨k, L, r, htrim, -, hk, hL, hp⟩ := parseVariableDeclaration_shape (hall s hs)
  refine ⟨k, L, r, htrim, hk, hL, ?_⟩
  rw [hp]
  show (Cut (removeSpaces L) ':').1 ≠ [] ↔ _
  rw [Ne, Cut_fst_eq_nil_iff, not_or]

/-- Witness for C13: both statements of `"const a = 1; let b = 2"` have a
non-empty identifier. -/
theorem C13_identifier_nonempty_iff_witness :
    (ParseToAST "const a = 1; let b = 2".toList).2 = none ∧
    (ParseToAST "const a = 1; let b = 2".toList).1.declarations.map
      (fun d => d.declarator.identifier) = ["a".toList, "b".toList] ∧
    ∀ s ∈ Split "const a = 1; let b = 2".toList ';', ∃ k L r,
      TrimSpace s = k ++ ' ' :: (L ++ '=' :: r) ∧ ' ' ∉ k ∧ '=' ∉ L ∧
      ((parseVariableDeclaration s).1.declarator.identifier ≠ [] ↔
        (removeSpaces L ≠ [] ∧ (removeSpaces L).head? ≠ some ':')) :=
  ⟨by decide, by decide,
   (C13_identifier_nonempty_iff "const a = 1; let b = 2".toList (by decide)).2⟩

/-- C14 as stated fails: the statement `const a<TAB>b = 1` is parsed without
error and its identifier `a<TAB>b` contains a tab, because only the space
character is deleted from the left part. -/
theorem C14_tab_kept_in_identifier :
    isBlank (Char.ofNat 9) = true ∧
    ParseToAST ("const a".toList ++ [Char.ofNat 9] ++ "b = 1".toList) =
      ({ declarations := [{ kind := "const".toList, declarator :=
          { identifier := ['a', Char.ofNat 9, 'b'], typeAnnotation := [],
            value := { kind := "NumericLiteral".toList, value := Value.int 1,
                       raw := " 1".toList } } }] }, none) := by
  decide

/-- C14 (amended). For every input on which `ParseToAST` returns no error, the
identifier of every declaration in the returned tree is space stripped: it
contains no space character `' '`. -/
theorem C14_identifier_no_space (code : List Char) (hok : (ParseToAST code).2 = none) :
    ∀ d ∈ (ParseToAST code).1.declarations, ' ' ∉ d.declarator.identifier := by
  obtain ⟨hall, hres⟩ := ParseToAST_ok hok
  intro d hd
  rw [hres] at hd
  simp only [List.mem_map] at hd
  obtain ⟨s, hs, hds⟩ := hd
  obtain ⟨k, L, r, -, -, -, -, hp⟩ := parseVariableDeclaration_shape (hall s hs)
  rw [← hds, hp]
  show ' ' ∉ (Cut (removeSpaces L) ':').1
  intro hmem
  by_cases hc : ':' ∈ removeSpaces L
  · obtain ⟨b, a, hb, hnb⟩ := exists_first_occurrence hc
    rw [hb, Cut_append_cons a hnb] at hmem
    exact not_mem_removeSpaces L (by rw [hb]; exact List.mem_append_left _ hmem)
  · rw [Cut_of_not_mem hc] at hmem
    exact not_mem_removeSpaces L hmem

/-- Witness for C14: the identifier `"foo"` of `"const f o o = 1"` has no
space. -/
theorem C14_identifier_no_space_witness :
    (ParseToAST "const f o o = 1".toList).2 = none ∧
    (ParseToAST "const f o o = 1".toList).1.declarations.map
      (fun d => d.declarator.identifier) = ["foo".toList] ∧
    ∀ d ∈ (ParseToAST "const f o o = 1".toList).1.declarations,
      ' ' ∉ d.declarator.identifier :=
  ⟨by decide, by decide, C14_identifier_no_space "const f o o = 1".toList (by decide)⟩

/-- C15. The keyword set is open: for every non-empty token `k` without white
space (whether or not it is one of `const`, `let`, `var`) and every declarator
text `d` that contains `=`, `parseVariableDeclaration` applied to
`k ++ " " ++ d` succeeds and the kind of the declaration is exactly `k`. -/
theorem C15_open_keyword_set (k d : List Char) (hk : k ≠ [])
    (hks : ∀ c ∈ k, IsSpace c = false) (hd : '=' ∈ d) :
    (parseVariableDeclaration (k ++ " ".toList ++ d)).2 = none ∧
    (parseVariableDeclaration (k ++ " ".toList ++ d)).1.kind = k := by
  have hsp : ' ' ∉ k := by
    intro hm
    have := hks ' ' hm
    revert this
    decide
  have heq : IsSpace '=' = false := by decide
  have htrim : TrimSpace (k ++ " ".toList ++ d) = k ++ ' ' :: d.rdropWhile IsSpace := by
    change TrimSpace ((k ++ [' ']) ++ d) = _
    unfold TrimSpace
    rw [dropWhile_eq_self_of_head, rdropWhile_append_of_mem _ hd heq]
    · simp
    · intro a ha
      cases k with
      | nil => exact absurd rfl hk
      | cons c cs =>
        simp only [List.cons_append, List.head?_cons, Option.some.injEq] at ha
        exact hks a (by simp [← ha])
  have hmem : '=' ∈ d.rdropWhile IsSpace := mem_rdropWhile_of_not hd heq
  rw [parseVariableDeclaration_split_eq _ htrim hsp hmem]
  exact ⟨rfl, rfl⟩

/-- Witness for C15: `"whatever x = 1"` is accepted with kind `"whatever"`. -/
theorem C15_open_keyword_set_witness :
    ("whatever".toList ≠ [] ∧ (∀ c ∈ "whatever".toList, IsSpace c = false) ∧
      '=' ∈ "x = 1".toList) ∧
    (parseVariableDeclaration "whatever x = 1".toList).2 = none ∧
    (parseVariableDeclaration "whatever x = 1".toList).1.kind = "whatever".toList :=
  ⟨by decide,
   C15_open_keyword_set "whatever".toList "x = 1".toList (by decide) (by decide) (by decide)⟩

/-- C16. Surrounding white space of a statement is irrelevant: for every
statement `s` and all strings `w1`, `w2` made only of spaces, tabs, newlines and
carriage returns, `parseVariableDeclaration (w1 ++ s ++ w2)` returns the same
result (same declaration, raw text included, or same error) as
`parseVariableDeclaration s`. -/
theorem C16_surrounding_blank_irrelevant (s w1 w2 : List Char)
    (h1 : ∀ c ∈ w1, isBlank c = true) (h2 : ∀ c ∈ w2, isBlank c = true) :
    parseVariableDeclaration (w1 ++ s ++ w2) = parseVariableDeclaration s := by
  have h : TrimSpace (w1 ++ s ++ w2) = TrimSpace s :=
    TrimSpace_pad w1 s w2 (fun c hc => isBlank_IsSpace (h1 c hc))
      (fun c hc => isBlank_IsSpace (h2 c hc))
  unfold parseVariableDeclaration
  rw [h]

/-- Witness for C16: the second statement of the multi-statement test input,
preceded by a newline, two tabs and two spaces and followed by a newline and
two tabs. -/
theorem C16_surrounding_blank_irrelevant_witness :
    ((∀ c ∈ [Char.ofNat 10, Char.ofNat 9, Char.ofNat 9, ' ', ' '], isBlank c = true) ∧
      (∀ c ∈ [Char.ofNat 10, Char.ofNat 9, Char.ofNat 9], isBlank c = true)) ∧
    parseVariableDeclaration
        ([Char.ofNat 10, Char.ofNat 9, Char.ofNat 9, ' ', ' '] ++ "var bar:number=45.123".toList
          ++ [Char.ofNat 10, Char.ofNat 9, Char.ofNat 9])
      = parseVariableDeclaration "var bar:number=45.123".toList ∧
    parseVariableDeclaration "var bar:number=45.123".toList =
      ({ kind := "var".toList, declarator :=
          { identifier := "bar".toList, typeAnnotation := "number".toList,
            value := { kind := "StringLiteral".toList, value := Value.str "45.123".toList,
                       raw := "45.123".toList } } }, none) :=
  ⟨by decide,
   C16_surrounding_blank_irrelevant "var bar:number=45.123".toList
     [Char.ofNat 10, Char.ofNat 9, Char.ofNat 9, ' ', ' ']
     [Char.ofNat 10, Char.ofNat 9, Char.ofNat 9] (by decide) (by decide),
   by decide⟩

/-- C17. Exact success condition of the whole parse: `ParseToAST` returns no
error if and only if every piece obtained by splitting the input on `;` is,
after leading and trailing white space is stripped, of the form
`k ++ " " ++ rest` with no space in `k` (so it contains a space, and `rest` is
the text after its first space) and `rest` contains `=`. Nothing else about
the input can cause an error. -/
theorem C17_exact_success_condition (code : List Char) :
    (ParseToAST code).2 = none ↔
      ∀ s ∈ Split code ';', ∃ k rest,
        TrimSpace s = k ++ ' ' :: rest ∧ ' ' ∉ k ∧ '=' ∈ rest := by
  constructor
  · intro hok s hs
    obtain ⟨k, rest, h1, h2, h3, -⟩ := parseVariableDeclaration_ok ((ParseToAST_ok hok).1 s hs)
    exact ⟨k, rest, h1, h2, h3⟩
  · intro h
    have hall : ∀ s ∈ Split code ';', (parseVariableDeclaration s).2 = none := by
      intro s hs
      obtain ⟨k, rest, h1, h2, h3⟩ := h s hs
      rw [parseVariableDeclaration_split_eq rest h1 h2 h3]
    unfold ParseToAST
    rw [loop_all_ok [] _ hall]

/-- C18. A terminating semicolon is rejected: for every input that ends with
`;` followed by nothing or by white space only, `ParseToAST` returns an error
and the empty tree; when every statement before that final `;` is well formed,
the error is the MissingDeclarationKeyword error of the empty last piece. -/
theorem C18_trailing_semicolon_rejected (pre w : List Char)
    (hw : ∀ c ∈ w, IsSpace c = true) :
    (∃ e, ParseToAST (pre ++ ';' :: w) = (AST.zero, some e)) ∧
    ((∀ s ∈ Split pre ';', (parseVariableDeclaration s).2 = none) →
      ParseToAST (pre ++ ';' :: w) =
        (AST.zero, some (ParseError.missingDeclarationKeyword []))) := by
  have hsemi : ';' ∉ w := by
    intro hm
    have := hw ';' hm
    revert this
    decide
  have hsplit : Split (pre ++ ';' :: w) ';' = Split pre ';' ++ [w] := by
    rw [Split_append_sep, Split_of_not_mem hsemi]
  have htrim : TrimSpace w = [] := TrimSpace_of_all_space hw
  have hfail : parseVariableDeclaration w =
      (VariableDeclaration.zero, some (ParseError.missingDeclarationKeyword [])) := by
    have := parseVariableDeclaration_of_no_space (s := w) (by rw [htrim]; simp)
    rw [htrim] at this
    exact this
  constructor
  · apply ParseToAST_of_failing_piece
    refine ⟨w, by rw [hsplit]; simp, ?_⟩
    rw [hfail]
    simp
  · intro hall
    unfold ParseToAST
    rw [hsplit]
    exact loop_first_error [] _ w [] _ hall (by rw [hfail])

/-- Witness for C18: `"const a = 1;"` and the same text followed by a newline
are rejected with the empty tree. -/
theorem C18_trailing_semicolon_rejected_witness :
    (∀ c ∈ [Char.ofNat 10], IsSpace c = true) ∧
    ParseToAST "const a = 1;".toList =
      (AST.zero, some (ParseError.missingDeclarationKeyword [])) ∧
    ParseToAST ("const a = 1".toList ++ ';' :: [Char.ofNat 10]) =
      (AST.zero, some (ParseError.missingDeclarationKeyword [])) :=
  ⟨by decide,
   (C18_trailing_semicolon_rejected "const a = 1".toList [] (by decide)).2 (by decide),
   (C18_trailing_semicolon_rejected "const a = 1".toList [Char.ofNat 10] (by decide)).2
     (by decide)⟩

/-- C19. Lossless decomposition: for every statement `s` on which
`parseVariableDeclaration` succeeds with kind `k`, identifier `i`, type `t` and
literal raw text `r`, there is a text `L` without `=` such that the stripped
statement is `k ++ " " ++ L ++ "=" ++ r`, where `k` is non-empty and has no
space, and `L` with all spaces deleted is `i` when it contains no `:` and
`i ++ ":" ++ t` otherwise. -/
theorem C19_lossless_decomposition (s : List Char)
    (h : (parseVariableDeclaration s).2 = none) :
    ∃ L, '=' ∉ L ∧
      TrimSpace s = (parseVariableDeclaration s).1.kind ++ " ".toList ++ L ++ "=".toList
        ++ (parseVariableDeclaration s).1.declarator.value.raw ∧
      (parseVariableDeclaration s).1.kind ≠ [] ∧
      ' ' ∉ (parseVariableDeclaration s).1.kind ∧
      (':' ∉ removeSpaces L →
        removeSpaces L = (parseVariableDeclaration s).1.declarator.identifier) ∧
      (':' ∈ removeSpaces L →
        removeSpaces L = (parseVariableDeclaration s).1.declarator.identifier ++ ":".toList
          ++ VariableDeclarator.typeAnnotation (parseVariableDeclaration s).1.declarator) := by
  obtain ⟨k, L, r, htrim, hk, hsp, hL, hp⟩ := parseVariableDeclaration_shape h
  rw [hp]
  refine ⟨L, hL, ?_, hk, hsp, ?_, ?_⟩
  · rw [htrim]
    change _ = k ++ [' '] ++ L ++ ['='] ++ r
    simp
  · intro hc
    show removeSpaces L = (Cut (removeSpaces L) ':').1
    rw [Cut_of_not_mem hc]
  · intro hc
    show removeSpaces L = (Cut (removeSpaces L) ':').1 ++ [':'] ++ (Cut (removeSpaces L) ':').2.1
    obtain ⟨b, a, hb, hnb⟩ := exists_first_occurrence hc
    rw [hb, Cut_append_cons a hnb]
    simp

/-- Witness for C19: `"  const foo : string = 'hi' "` is `"const"`, a space,
`L = "foo : string "`, `=`, and the raw text `" 'hi'"`. -/
theorem C19_lossless_decomposition_witness :
    (parseVariableDeclaration "  const foo : string = 'hi' ".toList).2 = none ∧
    parseVariableDeclaration "  const foo : string = 'hi' ".toList =
      ({ kind := "const".toList, declarator :=
          { identifier := "foo".toList, typeAnnotation := "string".toList,
            value := { kind := "StringLiteral".toList, value := Value.str "'hi'".toList,
                       raw := " 'hi'".toList } } }, none) ∧
    ∃ L, '=' ∉ L ∧
      "const foo : string = 'hi'".toList
        = "const".toList ++ " ".toList ++ L ++ "=".toList ++ " 'hi'".toList ∧
      "const".toList ≠ [] ∧ ' ' ∉ "const".toList ∧
      (':' ∉ removeSpaces L → removeSpaces L = "foo".toList) ∧
      (':' ∈ removeSpaces L →
        removeSpaces L = "foo".toList ++ ":".toList ++ "string".toList) :=
  ⟨by decide, by decide,
   C19_lossless_decomposition "  const foo : string = 'hi' ".toList (by decide)⟩

/-- C20. A missing value is not an error: for every declarator text whose part
after the first `=` is empty or consists only of space characters,
`parseVariableDeclarator` succeeds and the literal has kind `"StringLiteral"`,
value the empty string, and raw text that (possibly empty) run of spaces. -/
theorem C20_missing_value_accepted (L r : List Char) (hL : '=' ∉ L)
    (hr : ∀ c ∈ r, c = ' ') :
    (parseVariableDeclarator (L ++ '=' :: r)).2 = none ∧
    (parseVariableDeclarator (L ++ '=' :: r)).1.value =
      { kind := "StringLiteral".toList, value := Value.str [], raw := r } := by
  rw [parseVariableDeclarator_of_split r hL, parseValue_of_all_space hr]
  exact ⟨rfl, rfl⟩

/-- Witness for C20: the declarators `"a ="` (of the statement `"const a ="`)
and `"a =  "`. -/
theorem C20_missing_value_accepted_witness :
    ('=' ∉ "a ".toList ∧ ∀ c ∈ "  ".toList, c = ' ') ∧
    ParseToAST "const a =".toList =
      ({ declarations := [{ kind := "const".toList, declarator :=
          { identifier := "a".toList, typeAnnotation := [],
            value := { kind := "StringLiteral".toList, value := Value.str [],
                       raw := [] } } }] }, none) ∧
    ((parseVariableDeclarator "a =".toList).2 = none ∧
      (parseVariableDeclarator "a =".toList).1.value =
        { kind := "StringLiteral".toList, value := Value.str [], raw := [] }) ∧
    ((parseVariableDeclarator "a =  ".toList).2 = none ∧
      (parseVariableDeclarator "a =  ".toList).1.value =
        { kind := "StringLiteral".toList, value := Value.str [], raw := "  ".toList }) :=
  ⟨by decide, by decide,
   C20_missing_value_accepted "a ".toList [] (by decide) (by decide),
   C20_missing_value_accepted "a ".toList "  ".toList (by decide) (by decide)⟩

end TsParser
